import Mathlib

/-!
Verification of the ms-rewards-agent core logic: a shallow embedding of
`src/utils/storage.ts`, `src/utils/humanizer.ts` and
`src/handlers/quiz-handler.ts` (QuizHandler and ClickHandler), with theorems
settling the specification claims about them.

JavaScript strings are modelled as Lean `String` / `List Char`; JS `number`
values that hold integers are modelled as `Int`/`Nat`, and coordinates as `ℚ`
(the source only adds, subtracts, multiplies and divides them); 32-bit
wrap-around from `hash & hash` / `<<` is made explicit with `% 2^32`.
Randomness (`Math.random()`) is modelled by passing each draw as an explicit
parameter in `[0, 1)`.
-/

namespace MsRewards

/-- The space character, `' '` in the source (char code 32). -/
def spaceChar : Char := Char.ofNat 32

/-- JS regex `\s` character class (ECMAScript WhiteSpace ∪ LineTerminator),
used by `replace(/\s+/g, ' ')`, `trim()` and the explore-query regex. -/
def jsSpace (c : Char) : Bool :=
  let n := c.toNat
  n == 32 || n == 9 || n == 10 || n == 13 || n == 11 || n == 12 ||
  n == 0xa0 || n == 0x1680 || (decide (0x2000 ≤ n) && decide (n ≤ 0x200a)) ||
  n == 0x2028 || n == 0x2029 || n == 0x202f || n == 0x205f || n == 0x3000 ||
  n == 0xfeff

/-- Characters kept by `replace(/[^a-z0-9\s]/g, '')` other than whitespace:
lowercase ASCII letters (codes 97–122) and digits (codes 48–57). -/
def isLowerAlnum (c : Char) : Bool :=
  let n := c.toNat
  (decide (97 ≤ n) && decide (n ≤ 122)) || (decide (48 ≤ n) && decide (n ≤ 57))

/-- `String.prototype.toLowerCase()` on one char, ASCII fragment (the inputs
the QA cache hashes are filtered down to ASCII right after lower-casing). -/
def jsToLower (c : Char) : Char :=
  let n := c.toNat
  if 65 ≤ n ∧ n ≤ 90 then Char.ofNat (n + 32) else c

/-- Characters kept by `replace(/[^a-z0-9\s]/g, '')`. -/
def keepChar (c : Char) : Bool := isLowerAlnum c || jsSpace c

/-- `replace(/\s+/g, ' ')`: each maximal run of whitespace becomes one space.
The flag records whether the previous character was part of a whitespace run. -/
def collapseWSAux : Bool → List Char → List Char
  | _, [] => []
  | prevSpace, c :: rest =>
    if jsSpace c then
      if prevSpace then collapseWSAux true rest
      else spaceChar :: collapseWSAux true rest
    else c :: collapseWSAux false rest

/-- `replace(/\s+/g, ' ')` on a whole character list. -/
def collapseWS (l : List Char) : List Char := collapseWSAux false l

/-- `String.prototype.trim()`: drop leading and trailing `\s` characters. -/
def jsTrim (l : List Char) : List Char :=
  ((l.dropWhile jsSpace).reverse.dropWhile jsSpace).reverse

/-- `trim()` packaged on `String`. -/
def jsTrimString (s : String) : String := ⟨jsTrim s.data⟩

/-- The normalization pipeline inside `QACache.hashQuestion`:
`question.toLowerCase().replace(/[^a-z0-9\s]/g, '').replace(/\s+/g, ' ').trim()`. -/
def normalizeQuestion (question : String) : List Char :=
  jsTrim (collapseWS ((question.data.map jsToLower).filter keepChar))

/-- `ToInt32` as performed by JS `x & x` (and `<<`): wrap to a signed 32-bit
integer. -/
def toInt32 (x : Int) : Int :=
  let m := x % (2 ^ 32 : Int)
  if m < 2 ^ 31 then m else m - 2 ^ 32

/-- One loop iteration of the djb2 hash in `QACache.hashQuestion`:
`hash = ((hash << 5) + hash) + normalized.charCodeAt(i); hash = hash & hash`. -/
def djb2Step (hash : Int) (c : Char) : Int :=
  toInt32 (toInt32 (hash * 32) + hash + (c.toNat : Int))

/-- `QACache.hashQuestion`: normalize, djb2-fold from 5381, then
`Math.abs(hash).toString(16)`. -/
def hashQuestion (question : String) : String :=
  let normalized := normalizeQuestion question
  let hash := normalized.foldl djb2Step 5381
  ⟨Nat.toDigits 16 hash.natAbs⟩

/-- `QARecord` from `src/types`: the value stored in the QA cache. -/
structure QARecord where
  questionHash : String
  answerIndex : Int
  correct : Bool
  evidence : Option (List String)
deriving DecidableEq

/-- The in-memory state of `QACache`'s backing `Record<string, QARecord>`. -/
def CacheState : Type := String → Option QARecord

/-- `QACache.lookup`: `cache[hash] || null`. -/
def lookup (cache : CacheState) (question : String) : Option QARecord :=
  cache (hashQuestion question)

/-- `QACache.store`: upsert keyed by the hash, except that an existing
`correct = true` record is not overwritten by a `correct = false` write
(`if (existing?.correct && !correct) return cache`). -/
def store (cache : CacheState) (question : String) (answerIndex : Int)
    (correct : Bool) (evidence : Option (List String)) : CacheState :=
  let hash := hashQuestion question
  let record : QARecord := ⟨hash, answerIndex, correct, evidence⟩
  let skip : Bool :=
    match cache hash with
    | some existing => existing.correct && !correct
    | none => false
  if skip then cache else fun k => if k = hash then some record else cache k

/-- The `source` field of `DailyPoints` (`'click' | 'search' | 'quiz'`). -/
inductive PointSource where
  | click
  | search
  | quiz
deriving DecidableEq

/-- `DailyPoints` entries of `MetricsStore` (`{ date, points, source }`). -/
structure DailyPoints where
  date : String
  points : Int
  source : PointSource
deriving DecidableEq

/-- The predicate of `data.dailyPoints.findIndex(d => d.date === today && d.source === source)`. -/
def samePointsKey (today : String) (source : PointSource) (d : DailyPoints) : Bool :=
  d.date == today && decide (d.source = source)

/-- `MetricsStore.recordPoints` acting on the `dailyPoints` list, with the
current date passed in for `new Date().toISOString().split('T')[0]`.
A matching (date, source) entry accumulates in place; otherwise
`[...data.dailyPoints.slice(-365), { date, points, source }]` is stored. -/
def recordPoints (dailyPoints : List DailyPoints) (today : String)
    (points : Int) (source : PointSource) : List DailyPoints :=
  match dailyPoints.findIdx? (samePointsKey today source) with
  | some i =>
    let d := dailyPoints.getD i ⟨today, points, source⟩
    dailyPoints.set i ⟨d.date, d.points + points, d.source⟩
  | none =>
    dailyPoints.drop (dailyPoints.length - 365) ++ [⟨today, points, source⟩]

/-- A point of the humanizer's mouse path, with exact coordinates. -/
structure MousePoint where
  x : ℚ
  y : ℚ
deriving DecidableEq

/-- `generateMousePath` from `src/utils/humanizer.ts`. The four `Math.random()`
draws used to jitter the Bézier control points are passed as `r1 r2 r3 r4`. -/
def generateMousePath (startX startY endX endY : ℚ) (steps : ℕ)
    (r1 r2 r3 r4 : ℚ) : List MousePoint :=
  let control1X := startX + (endX - startX) * (3 / 10) + (r1 - 1 / 2) * 50
  let control1Y := startY + (endY - startY) * (1 / 10) + (r2 - 1 / 2) * 50
  let control2X := startX + (endX - startX) * (7 / 10) + (r3 - 1 / 2) * 50
  let control2Y := startY + (endY - startY) * (9 / 10) + (r4 - 1 / 2) * 50
  (List.range (steps + 1)).map fun (i : ℕ) =>
    let t : ℚ := (i : ℚ) / (steps : ℚ)
    ⟨(1 - t) ^ 3 * startX + 3 * (1 - t) ^ 2 * t * control1X +
       3 * (1 - t) * t ^ 2 * control2X + t ^ 3 * endX,
     (1 - t) ^ 3 * startY + 3 * (1 - t) ^ 2 * t * control1Y +
       3 * (1 - t) * t ^ 2 * control2Y + t ^ 3 * endY⟩

/-- An element's bounding box as returned by `boundingBox()`. -/
structure Box where
  x : ℚ
  y : ℚ
  width : ℚ
  height : ℚ
deriving DecidableEq

/-- The x coordinate of the click target in `clickHuman`/`clickLocatorHuman`:
`box.x + box.width / 2 + (Math.random() - 0.5) * (box.width * 0.8)`. -/
def clickTargetX (box : Box) (r : ℚ) : ℚ :=
  box.x + box.width / 2 + (r - 1 / 2) * (box.width * (8 / 10))

/-- The y coordinate of the click target in `clickHuman`/`clickLocatorHuman`:
`box.y + box.height / 2 + (Math.random() - 0.5) * (box.height * 0.8)`. -/
def clickTargetY (box : Box) (r : ℚ) : ℚ :=
  box.y + box.height / 2 + (r - 1 / 2) * (box.height * (8 / 10))

/-- Pointer events issued by `clickHuman` (`page.mouse.move/down/up`). -/
inductive PointerEvent where
  | move (x y : ℚ)
  | down
  | up
deriving DecidableEq

/-- `Humanizer.clickHuman`: given the outcome of `boundingBox()` (`none`
models `null`), the two offset draws `rx ry` and the four path-jitter draws,
either throws (`Error` message as a string) or issues the pointer events.
`clickLocatorHuman` is the same computation with the constant message
`"Element not visible"`. -/
def clickHuman (box? : Option Box) (rx ry r1 r2 r3 r4 : ℚ)
    (selector : String) : Except String (List PointerEvent) :=
  match box? with
  | none => .error ("Element " ++ selector ++ " not visible")
  | some box =>
    let targetX := clickTargetX box rx
    let targetY := clickTargetY box ry
    let path := generateMousePath 0 0 targetX targetY 50 r1 r2 r3 r4
    .ok ((path.map fun p => PointerEvent.move p.x p.y) ++
      [PointerEvent.down, PointerEvent.up])

/-- A card on the rewards page as observed by `QuizHandler.findQuizActivities`:
`matchesSelector.getD s false` says whether the card is matched by the `s`-th
entry of `quizSelectors`; the two indicator fields model whether the card
contains an element matching the completed-check selector
(`[class*="completed"], .mee-icon-SkypeCircleCheck, .c-glyph-check`) resp. a
lock indicator (`points-locked` / lock icon); `text` is `textContent()`. -/
structure QuizCard where
  matchesSelector : List Bool
  hasCompletedIndicator : Bool
  hasLockIndicator : Bool
  text : String
deriving DecidableEq

/-- The number of entries of `quizSelectors` in `findQuizActivities`. -/
def numQuizSelectors : ℕ := 7

/-- The body of the double loop of `findQuizActivities`: for one card matched
by the current selector, skip it if completed, skip it if its text is already
in `processedIndices`, otherwise record the text and keep the card. -/
def quizStep (acc : List String × List QuizCard) (card : QuizCard) :
    List String × List QuizCard :=
  if card.hasCompletedIndicator then acc
  else if acc.1.contains card.text then acc
  else (acc.1 ++ [card.text], acc.2 ++ [card])

/-- `QuizHandler.findQuizActivities`: iterate the seven quiz selectors; for
each, walk the cards the selector matches in page order and apply `quizStep`.
Only the completion indicator is consulted; there is no lock check. -/
def findQuizActivities (page : List QuizCard) : List QuizCard :=
  ((List.range numQuizSelectors).foldl
    (fun acc s =>
      (page.filter fun c => c.matchesSelector.getD s false).foldl quizStep acc)
    ([], [])).2

/-- `'standard' | 'explore'` in `ClickHandler`. -/
inductive ActivityType where
  | standard
  | explore
deriving DecidableEq

/-- A card as observed by `ClickHandler.findClickableActivities.processCard`:
visibility, the completion indicator, the `[aria-label="Points you will
earn"]` badge, the quiz/poll indicator, the `textContent()` of the first
title node (`none` models `null`), the description text (`none` models a
missing node, i.e. the `.catch(() => undefined)` path), and whether the card
has an `a` link. -/
structure ClickCard where
  visible : Bool
  hasCompletedIndicator : Bool
  hasPointsLabel : Bool
  hasQuizIndicator : Bool
  titleText : Option String
  descriptionText : Option String
  hasLink : Bool
deriving DecidableEq

/-- `ActivityInfo` from `ClickHandler` (the opaque `locator` handle and the
constant `selector: "placeholder"` field are omitted). -/
structure ActivityInfo where
  index : ℕ
  title : String
  isCompleted : Bool
  type : ActivityType
  description : Option String
deriving DecidableEq

/-- `processCard` inside `findClickableActivities`: the per-card filter and
extraction. Returns `none` when the card is skipped. -/
def processCard (card : ClickCard) (type : ActivityType) (index : ℕ) :
    Option ActivityInfo :=
  if !card.visible then none
  else if card.hasCompletedIndicator then none
  else if type = ActivityType.standard && !card.hasPointsLabel then none
  else if type = ActivityType.standard && card.hasQuizIndicator then none
  else
    let rawTitle :=
      match card.titleText with
      | some t => if t = "" then s!"Activity #{index}" else t
      | none => s!"Activity #{index}"
    if !card.hasLink then none
    else some ⟨index, jsTrimString rawTitle, false, type,
      card.descriptionText.map jsTrimString⟩

/-- One loop iteration of `findClickableActivities`: the index given to
`processCard` is `activities.length` at the time of the call, and the card is
appended whenever `processCard` accepts it (no comparison with the titles
already accepted). -/
def clickStep (type : ActivityType) (acts : List ActivityInfo)
    (card : ClickCard) : List ActivityInfo :=
  match processCard card type acts.length with
  | some info => acts ++ [info]
  | none => acts

/-- `ClickHandler.findClickableActivities`: process the "More activities"
cards as `standard`, then the "Explore" cards as `explore`, accumulating into
one list. -/
def findClickableActivities (more explore : List ClickCard) :
    List ActivityInfo :=
  explore.foldl (clickStep ActivityType.explore)
    (more.foldl (clickStep ActivityType.standard) [])

/-- Case-insensitive literal matcher for one alternative of the explore-query
regex: `pat` is the lowercase pattern; on success returns the rest of the
input. -/
def stripLitCI : List Char → List Char → Option (List Char)
  | [], rest => some rest
  | _ :: _, [] => none
  | p :: ps, c :: cs => if jsToLower c = p then stripLitCI ps cs else none

/-- `\s+` of the explore-query regex: requires at least one `\s` character
and then consumes the maximal run. -/
def dropSpaces1 : List Char → Option (List Char)
  | [] => none
  | c :: cs => if jsSpace c then some (cs.dropWhile jsSpace) else none

/-- `[:\-–]?` of the explore-query regex (colon, hyphen, en dash). -/
def dropLeadPunct : List Char → List Char
  | [] => []
  | c :: cs => if c = ':' ∨ c = '-' ∨ c = '–' then cs else c :: cs

/-- The anchored regex `/^search\s+on\s+bing\s+(?:to|for)\s*[:\-–]?\s*/i` of
`normalizeExploreQuery`: on a match, returns the input with the matched
leading phrase removed; `none` means no match (the alternation is
deterministic because everything after it is nullable). -/
def stripExploreLead (l : List Char) : Option (List Char) :=
  (stripLitCI "search".data l).bind fun l1 =>
  (dropSpaces1 l1).bind fun l2 =>
  (stripLitCI "on".data l2).bind fun l3 =>
  (dropSpaces1 l3).bind fun l4 =>
  (stripLitCI "bing".data l4).bind fun l5 =>
  (dropSpaces1 l5).bind fun l6 =>
  (match stripLitCI "to".data l6 with
   | some l7 => some l7
   | none => stripLitCI "for".data l6).bind fun l7 =>
  some ((dropLeadPunct (l7.dropWhile jsSpace)).dropWhile jsSpace)

/-- `ClickHandler.normalizeExploreQuery`: trim; empty → `''`; strip the
leading "search on Bing to/for" phrase and trim again; if that leaves an
empty string, fall back to the trimmed input. -/
def normalizeExploreQuery (text : String) : String :=
  let trimmed := jsTrimString text
  if trimmed = "" then ""
  else
    let replaced :=
      match stripExploreLead trimmed.data with
      | some rest => rest
      | none => trimmed.data
    let cleaned := jsTrimString ⟨replaced⟩
    if cleaned = "" then trimmed else cleaned

/-- `ClickHandler.getExploreQuery` on the fields it reads: the description
(`none` models `undefined`; the empty string is falsy in
`activity.description ? ... : ''`) and the title. -/
def getExploreQuery (description : Option String) (title : String) : String :=
  let fromDescription :=
    match description with
    | some d => if d = "" then "" else normalizeExploreQuery d
    | none => ""
  if fromDescription = "" then normalizeExploreQuery title else fromDescription

/-- Characters that can occur in the output of the normalization pipeline:
lowercase alphanumerics and the plain space. -/
def goodChar (c : Char) : Bool := isLowerAlnum c || c == spaceChar

/-- The qualification test applied per card by
`findClickableActivities.processCard` (visibility, completion, the
points badge and quiz exclusion for standard cards, link presence); it does
not look at the card's title. -/
def qualifies (card : ClickCard) (type : ActivityType) : Bool :=
  card.visible && !card.hasCompletedIndicator &&
  (!(decide (type = ActivityType.standard)) || card.hasPointsLabel) &&
  (!(decide (type = ActivityType.standard)) || !card.hasQuizIndicator) &&
  card.hasLink

/-- No two adjacent characters are both the plain space. -/
def NoAdjSp (l : List Char) : Prop :=
  List.Chain' (fun a b => ¬(a = spaceChar ∧ b = spaceChar)) l

/-- Normal form of `normalizeQuestion` outputs: only lowercase alphanumerics
and isolated spaces, with no leading or trailing space. -/
def isNormalizedQ (l : List Char) : Prop :=
  (∀ c ∈ l, goodChar c = true) ∧ NoAdjSp l ∧
  l.head? ≠ some spaceChar ∧ l.getLast? ≠ some spaceChar

/-! ## Theorems -/

/-- A `store` with `correct = true` always writes: the skip rule never fires. -/
theorem store_true_apply (cache : CacheState) (q : String) (a : Int)
    (ev : Option (List String)) (k : String) :
    store cache q a true ev k =
      if k = hashQuestion q then some ⟨hashQuestion q, a, true, ev⟩
      else cache k := by
  unfold store
  cases h : cache (hashQuestion q) <;> simp [h]

/-- A `store` with `correct = false` on a key whose record is already correct
is a no-op. -/
theorem store_skip (cache : CacheState) (q : String) (a : Int)
    (ev : Option (List String)) (e : QARecord)
    (he : cache (hashQuestion q) = some e) (hc : e.correct = true) :
    store cache q a false ev = cache := by
  unfold store
  simp [he, hc]

/-- Claim C1: after `store (q, a, correct := true)`, a subsequent
`store (q2, a2, correct := false)` for any `q2` hashing to the same key
leaves the cache unchanged, and the looked-up record still has
`correct = true` and `answerIndex = a`. -/
theorem store_sticky_correct (cache : CacheState) (q : String) (a : Int)
    (ev : Option (List String)) (q2 : String) (a2 : Int)
    (ev2 : Option (List String)) (hh : hashQuestion q2 = hashQuestion q) :
    store (store cache q a true ev) q2 a2 false ev2 = store cache q a true ev ∧
    ∃ r, lookup (store (store cache q a true ev) q2 a2 false ev2) q = some r ∧
      r.correct = true ∧ r.answerIndex = a := by
  have h1 : store cache q a true ev (hashQuestion q) =
      some ⟨hashQuestion q, a, true, ev⟩ := by
    rw [store_true_apply]
    simp
  have h2 : store (store cache q a true ev) q2 a2 false ev2 =
      store cache q a true ev := by
    refine store_skip _ _ _ _ ⟨hashQuestion q, a, true, ev⟩ ?_ rfl
    rw [hh, h1]
  exact ⟨h2, ⟨hashQuestion q, a, true, ev⟩, by rw [lookup, h2, h1], rfl, rfl⟩

set_option maxRecDepth 8000 in
/-- Witness for C1 at concrete inputs (the two questions hash equal because
they normalize identically). -/
theorem store_sticky_correct_witness :
    hashQuestion "What is 2+2?" = hashQuestion "what is 2+2" ∧
    (store (store (fun _ => none) "what is 2+2" 1 true none) "What is 2+2?" 2
          false none =
        store (fun _ => none) "what is 2+2" 1 true none ∧
      ∃ r, lookup (store (store (fun _ => none) "what is 2+2" 1 true none)
          "What is 2+2?" 2 false none) "what is 2+2" = some r ∧
        r.correct = true ∧ r.answerIndex = 1) :=
  ⟨by decide, store_sticky_correct (fun _ => none) "what is 2+2" 1 none
    "What is 2+2?" 2 none (by decide)⟩

/-- Claim C10: a later `store` with `correct = true` unconditionally replaces
an earlier correct record for the same question: the answer index and the
evidence become those of the new write. -/
theorem store_correct_overwrites (cache : CacheState) (q : String)
    (a : Int) (ev : Option (List String)) (a2 : Int)
    (ev2 : Option (List String)) :
    lookup (store (store cache q a true ev) q a2 true ev2) q =
      some ⟨hashQuestion q, a2, true, ev2⟩ := by
  rw [lookup, store_true_apply]
  simp

/-- If some element of the list satisfies the predicate, `findIdx?` finds an
index. -/
theorem findIdx?_isSome_of_exists {α : Type} (p : α → Bool) :
    ∀ (l : List α) (i : ℕ), (∃ x ∈ l, p x = true) →
      (List.findIdx? p l i).isSome = true := by
  intro l
  induction l with
  | nil => rintro i ⟨x, hx, -⟩; cases hx
  | cons a l ih =>
    rintro i ⟨x, hx, hp⟩
    rw [List.findIdx?_cons]
    by_cases ha : p a = true
    · simp [ha]
    · rcases List.mem_cons.mp hx with rfl | hx'
      · exact absurd hp ha
      · simpa [ha] using ih (i + 1) ⟨x, hx', hp⟩

set_option maxRecDepth 100000 in
/-- Counterexample to claim C4 as stated: from a 365-entry list (the claimed
cap) a `recordPoints` call with a fresh (date, source) key produces 366
entries, because the source keeps `slice(-365)` old entries and then appends. -/
theorem recordPoints_cap365_counterexample :
    ((List.range 365).map fun i =>
        (⟨toString i, 0, PointSource.click⟩ : DailyPoints)).length ≤ 365 ∧
    ¬(recordPoints
        ((List.range 365).map fun i =>
          (⟨toString i, 0, PointSource.click⟩ : DailyPoints))
        "x" 1 PointSource.quiz).length ≤ 365 := by
  constructor
  · simp
  · intro h
    have he : (recordPoints
        ((List.range 365).map fun i =>
          (⟨toString i, 0, PointSource.click⟩ : DailyPoints))
        "x" 1 PointSource.quiz).length = 366 := by decide
    omega

/-- Claim C4 (amended): `recordPoints` keeps the `dailyPoints` list at no
more than 366 date/source entries, evicting from the front (oldest first),
and a call whose (date, source) matches an existing entry accumulates into
it without changing the number of entries. -/
theorem recordPoints_cap (dps : List DailyPoints) (today : String)
    (pts : Int) (src : PointSource) (h : dps.length ≤ 366) :
    (recordPoints dps today pts src).length ≤ 366 ∧
    ((∃ d ∈ dps, samePointsKey today src d = true) →
      (recordPoints dps today pts src).length = dps.length) ∧
    ((∀ d ∈ dps, samePointsKey today src d = false) →
      recordPoints dps today pts src =
        dps.drop (dps.length - 365) ++ [⟨today, pts, src⟩]) := by
  unfold recordPoints
  cases hf : dps.findIdx? (samePointsKey today src) with
  | some i =>
    refine ⟨by simpa [List.length_set] using h, fun _ => by simp [List.length_set], ?_⟩
    intro hall
    have : (List.findIdx? (samePointsKey today src) dps).isSome = true := by
      rw [hf]; rfl
    rw [List.findIdx?_eq_none_iff.mpr hall] at this
    cases this
  | none =>
    refine ⟨?_, ?_, fun _ => rfl⟩
    · simp only [List.length_append, List.length_drop, List.length_singleton]
      omega
    · rintro ⟨d, hd, hp⟩
      have := findIdx?_isSome_of_exists (samePointsKey today src) dps 0 ⟨d, hd, hp⟩
      rw [hf] at this
      cases this

/-- Witness for C4 (amended) at concrete inputs: a one-entry list, an
accumulating call, and the length facts given by the theorem. -/
theorem recordPoints_cap_witness :
    ([⟨"d", 3, PointSource.click⟩] : List DailyPoints).length ≤ 366 ∧
    (recordPoints [⟨"d", 3, PointSource.click⟩] "d" 5
        PointSource.click).length ≤ 366 ∧
    (recordPoints [⟨"d", 3, PointSource.click⟩] "d" 5
        PointSource.click).length =
      ([⟨"d", 3, PointSource.click⟩] : List DailyPoints).length := by
  have h := recordPoints_cap [⟨"d", 3, PointSource.click⟩] "d" 5
    PointSource.click (by decide)
  exact ⟨by decide, h.1, h.2.1 ⟨⟨"d", 3, PointSource.click⟩, by decide, by decide⟩⟩

/-- The randomized offset `(r - 0.5) * (w * 0.8)` drawn with `r ∈ [0, 1)`
stays within 40% of the full extent `w`. -/
theorem clickOffset_bound (w r : ℚ) (h0 : 0 ≤ r) (h1 : r < 1) (hw : 0 ≤ w) :
    |(r - 1 / 2) * (w * (8 / 10))| ≤ (4 / 10) * w := by
  rw [abs_mul, abs_of_nonneg (by positivity : (0:ℚ) ≤ w * (8 / 10))]
  have hr : |r - 1 / 2| ≤ 1 / 2 := abs_le.mpr ⟨by linarith, by linarith⟩
  nlinarith [abs_nonneg (r - 1 / 2)]

/-- Counterexample to claim C6 as stated: with the draw `r = 9/10 ∈ [0, 1)`
and a 10×10 box at the origin, the horizontal offset from the center is 3.2,
which exceeds 40% of the half-width (= 2); the source multiplies the draw by
`width * 0.8`, not by half-width `* 0.8`. -/
theorem clickTarget_halfwidth_counterexample :
    (0 ≤ (9 / 10 : ℚ) ∧ (9 / 10 : ℚ) < 1) ∧
    ¬|clickTargetX ⟨0, 0, 10, 10⟩ (9 / 10) - (0 + 10 / 2)| ≤
        (4 / 10) * (10 / 2) := by
  refine ⟨⟨by norm_num, by norm_num⟩, ?_⟩
  rw [clickTargetX, abs_le]
  norm_num

/-- Claim C6 (amended): for every box with nonnegative extents and every
draw in `[0, 1)`, the click target of `clickHuman`/`clickLocatorHuman` lies
within ±40% of the element's full width horizontally and full height
vertically around the box center (i.e. ±80% of the half-extents). -/
theorem clickTarget_offset_bound (box : Box) (rx ry : ℚ)
    (hx0 : 0 ≤ rx) (hx1 : rx < 1) (hy0 : 0 ≤ ry) (hy1 : ry < 1)
    (hw : 0 ≤ box.width) (hh : 0 ≤ box.height) :
    |clickTargetX box rx - (box.x + box.width / 2)| ≤ (4 / 10) * box.width ∧
    |clickTargetY box ry - (box.y + box.height / 2)| ≤
      (4 / 10) * box.height := by
  constructor
  · have e : clickTargetX box rx - (box.x + box.width / 2) =
        (rx - 1 / 2) * (box.width * (8 / 10)) := by
      rw [clickTargetX]; ring
    rw [e]
    exact clickOffset_bound box.width rx hx0 hx1 hw
  · have e : clickTargetY box ry - (box.y + box.height / 2) =
        (ry - 1 / 2) * (box.height * (8 / 10)) := by
      rw [clickTargetY]; ring
    rw [e]
    exact clickOffset_bound box.height ry hy0 hy1 hh

/-- Witness for C6 (amended) at a concrete box and draws. -/
theorem clickTarget_offset_bound_witness :
    ((0:ℚ) ≤ 1 / 4 ∧ (1 / 4 : ℚ) < 1 ∧ (0:ℚ) ≤ 3 / 4 ∧ (3 / 4 : ℚ) < 1 ∧
      (0:ℚ) ≤ 10 ∧ (0:ℚ) ≤ 6) ∧
    |clickTargetX ⟨1, 2, 10, 6⟩ (1 / 4) - (1 + 10 / 2)| ≤ (4 / 10) * 10 ∧
    |clickTargetY ⟨1, 2, 10, 6⟩ (3 / 4) - (2 + 6 / 2)| ≤ (4 / 10) * 6 :=
  ⟨⟨by norm_num, by norm_num, by norm_num, by norm_num, by norm_num,
    by norm_num⟩,
   clickTarget_offset_bound ⟨1, 2, 10, 6⟩ (1 / 4) (3 / 4) (by norm_num)
     (by norm_num) (by norm_num) (by norm_num) (by norm_num) (by norm_num)⟩

/-- Claim C7: for every endpoints, every `steps ≥ 1` and every outcome of the
control-point jitter, `generateMousePath` returns exactly `steps + 1` points,
the first of which is exactly the start and the last exactly the end. -/
theorem generateMousePath_endpoints (x0 y0 x1 y1 : ℚ) (steps : ℕ)
    (r1 r2 r3 r4 : ℚ) (h : 1 ≤ steps) :
    (generateMousePath x0 y0 x1 y1 steps r1 r2 r3 r4).length = steps + 1 ∧
    (generateMousePath x0 y0 x1 y1 steps r1 r2 r3 r4).head? =
      some ⟨x0, y0⟩ ∧
    (generateMousePath x0 y0 x1 y1 steps r1 r2 r3 r4).getLast? =
      some ⟨x1, y1⟩ := by
  have hs : (steps : ℚ) ≠ 0 := Nat.cast_ne_zero.mpr (by omega)
  unfold generateMousePath
  refine ⟨by rw [List.length_map, List.length_range], ?_, ?_⟩
  · rw [List.head?_map, List.range_succ_eq_map]
    simp only [List.head?_cons, Option.map_some']
    norm_num
  · rw [List.getLast?_map, List.range_succ, List.getLast?_concat,
      Option.map_some']
    rw [div_self hs]
    norm_num

/-- Witness for C7 at concrete endpoints, steps and jitter. -/
theorem generateMousePath_endpoints_witness :
    1 ≤ 2 ∧
    ((generateMousePath 2 3 10 11 2 (1 / 2) (1 / 3) 1 0).length = 2 + 1 ∧
      (generateMousePath 2 3 10 11 2 (1 / 2) (1 / 3) 1 0).head? =
        some ⟨2, 3⟩ ∧
      (generateMousePath 2 3 10 11 2 (1 / 2) (1 / 3) 1 0).getLast? =
        some ⟨10, 11⟩) :=
  ⟨by norm_num,
   generateMousePath_endpoints 2 3 10 11 2 (1 / 2) (1 / 3) 1 0 (by norm_num)⟩

/-- Claim C9: `clickHuman` fails exactly when `boundingBox()` yields no box,
and on a box it issues the pointer-move sequence along the generated path
followed by pointer-down and then pointer-up, raising no error. -/
theorem clickHuman_error_iff (box? : Option Box) (rx ry r1 r2 r3 r4 : ℚ)
    (sel : String) :
    ((clickHuman box? rx ry r1 r2 r3 r4 sel).isOk = false ↔ box? = none) ∧
    ∀ box, box? = some box →
      clickHuman box? rx ry r1 r2 r3 r4 sel =
        .ok (((generateMousePath 0 0 (clickTargetX box rx)
              (clickTargetY box ry) 50 r1 r2 r3 r4).map
            fun p => PointerEvent.move p.x p.y) ++
          [PointerEvent.down, PointerEvent.up]) := by
  cases box? with
  | none =>
    refine ⟨by simp [clickHuman, Except.isOk, Except.toBool], ?_⟩
    intro box hb
    cases hb
  | some box =>
    refine ⟨by simp [clickHuman, Except.isOk, Except.toBool], ?_⟩
    intro b hb
    cases hb
    rfl

/-- Witness for C9: the box case at concrete inputs, with the inner
hypothesis discharged by `rfl`. -/
theorem clickHuman_error_iff_witness :
    ((clickHuman (some ⟨0, 0, 2, 2⟩) (1 / 2) (1 / 2) 0 0 0 0 "#btn").isOk =
        false ↔ (some (⟨0, 0, 2, 2⟩ : Box)) = none) ∧
    clickHuman (some ⟨0, 0, 2, 2⟩) (1 / 2) (1 / 2) 0 0 0 0 "#btn" =
      .ok (((generateMousePath 0 0 (clickTargetX ⟨0, 0, 2, 2⟩ (1 / 2))
            (clickTargetY ⟨0, 0, 2, 2⟩ (1 / 2)) 50 0 0 0 0).map
          fun p => PointerEvent.move p.x p.y) ++
        [PointerEvent.down, PointerEvent.up]) :=
  ⟨(clickHuman_error_iff (some ⟨0, 0, 2, 2⟩) (1 / 2) (1 / 2) 0 0 0 0
      "#btn").1,
   (clickHuman_error_iff (some ⟨0, 0, 2, 2⟩) (1 / 2) (1 / 2) 0 0 0 0
      "#btn").2 ⟨0, 0, 2, 2⟩ rfl⟩

/-- Claim C2 (claim right, code wrong): a card that is matched by a quiz
selector, is not completed, but carries a lock indicator is nevertheless
returned by `findQuizActivities` — the code never consults a lock /
"points-locked" indicator, although the repository's own test
("should skip locked cards in sneak-peek section") requires such a card to
be skipped. -/
theorem findQuizActivities_lock_ignored :
    (⟨[true], false, true, "Tomorrow Quiz"⟩ : QuizCard).hasCompletedIndicator =
        false ∧
    (⟨[true], false, true, "Tomorrow Quiz"⟩ : QuizCard).hasLockIndicator =
        true ∧
    findQuizActivities [⟨[true], false, true, "Tomorrow Quiz"⟩] =
      [⟨[true], false, true, "Tomorrow Quiz"⟩] := by
  refine ⟨rfl, rfl, ?_⟩
  decide

/-- `processCard` accepts a card exactly when `qualifies` does, independently
of the running index (and hence of any previously accepted title). -/
theorem processCard_isSome (card : ClickCard) (type : ActivityType) (i : ℕ) :
    (processCard card type i).isSome = qualifies card type := by
  rcases card with ⟨v, comp, pts, quiz, tt, dt, link⟩
  cases type <;> cases v <;> cases comp <;> cases pts <;> cases quiz <;>
    cases link <;> simp [processCard, qualifies]

/-- The fold of `clickStep` appends one entry per qualifying card. -/
theorem clickStep_foldl_length (type : ActivityType) :
    ∀ (cards : List ClickCard) (acc : List ActivityInfo),
      (cards.foldl (clickStep type) acc).length =
        acc.length + (cards.filter fun c => qualifies c type).length := by
  intro cards
  induction cards with
  | nil => intro acc; simp
  | cons c cs ih =>
    intro acc
    rw [List.foldl_cons, ih]
    have hiff := processCard_isSome c type acc.length
    cases hp : processCard c type acc.length with
    | none =>
      rw [hp] at hiff
      simp only [clickStep, hp]
      rw [List.filter_cons, if_neg (by simp [← hiff])]
    | some info =>
      rw [hp] at hiff
      simp only [clickStep, hp]
      rw [List.filter_cons, if_pos (by simp [← hiff])]
      simp only [List.length_append, List.length_cons, List.length_nil]
      omega

/-- Counterexample to claim C5 as stated: two qualifying cards with the same
title text are both returned by `findClickableActivities`, so the result has
two entries with equal titles — no by-title deduplication happens. -/
theorem findClickableActivities_dup_title_counterexample :
    ((findClickableActivities
        [⟨true, false, true, false, some "A", none, true⟩,
          ⟨true, false, true, false, some "A", none, true⟩] []).map
        fun a => a.title) = ["A", "A"] ∧
    ¬((findClickableActivities
        [⟨true, false, true, false, some "A", none, true⟩,
          ⟨true, false, true, false, some "A", none, true⟩] []).map
        fun a => a.title).Nodup := by
  constructor
  · decide
  · decide

/-- Claim C5 (amended): `findClickableActivities` performs no deduplication
by title: every card accepted by the per-card filter yields its own entry in
the returned list — one per qualifying card of each section — even when an
already-accepted candidate has an equal title. -/
theorem findClickableActivities_no_dedup (more explore : List ClickCard) :
    (findClickableActivities more explore).length =
      (more.filter fun c => qualifies c ActivityType.standard).length +
      (explore.filter fun c => qualifies c ActivityType.explore).length := by
  unfold findClickableActivities
  rw [clickStep_foldl_length, clickStep_foldl_length]
  simp only [List.length_nil]
  omega

/-- Zeta-reduced form of `normalizeExploreQuery`. -/
theorem normalizeExploreQuery_eq (text : String) :
    normalizeExploreQuery text =
      if jsTrimString text = "" then ""
      else if jsTrimString ⟨(stripExploreLead (jsTrimString text).data).getD
          (jsTrimString text).data⟩ = "" then jsTrimString text
      else jsTrimString ⟨(stripExploreLead (jsTrimString text).data).getD
          (jsTrimString text).data⟩ := by
  unfold normalizeExploreQuery
  cases h : stripExploreLead (jsTrimString text).data <;> simp [h]

/-- On input with nonempty trimmed text, `normalizeExploreQuery` never
returns the empty string. -/
theorem normalizeExploreQuery_ne_empty (text : String)
    (h : jsTrimString text ≠ "") : normalizeExploreQuery text ≠ "" := by
  rw [normalizeExploreQuery_eq, if_neg h]
  split_ifs with h2
  · exact h
  · exact h2

/-- Counterexample to claim C3 as stated, at two concrete inputs. First, for
the description `" search on bing for "` the stripping leaves an empty
string and the query used is the trimmed text `"search on bing for"`, not
the original untrimmed text of the field. Second, for the present-but-blank
description `" "` with title `"pizza"` the query is `"pizza"`, derived from
the title, although the claim says a present description is the field used
(and its untrimmed text is `" "`, not `"pizza"`). -/
theorem exploreQuery_untrimmed_counterexample :
    jsTrimString ⟨(stripExploreLead
        (jsTrimString " search on bing for ").data).getD
        (jsTrimString " search on bing for ").data⟩ = "" ∧
    getExploreQuery (some " search on bing for ") "title" =
      "search on bing for" ∧
    "search on bing for" ≠ " search on bing for " ∧
    getExploreQuery (some " ") "pizza" = "pizza" ∧
    "pizza" ≠ " " := by
  refine ⟨by decide, by decide, by decide, by decide, by decide⟩

/-- Claim C3 (amended): the explore query is obtained by case-insensitively
stripping the leading "search on Bing to/for [:–-]" phrase from the card's
description when its trimmed text is nonempty; if the description is absent
or blank (trims to empty), the query is instead obtained from the title; and
whenever the stripping leaves an empty string, the query used is the trimmed
text of that field. -/
theorem getExploreQuery_spec (desc title : String) :
    (jsTrimString desc ≠ "" →
      getExploreQuery (some desc) title = normalizeExploreQuery desc) ∧
    (jsTrimString desc = "" →
      getExploreQuery (some desc) title = normalizeExploreQuery title) ∧
    getExploreQuery none title = normalizeExploreQuery title ∧
    (∀ text : String, jsTrimString text ≠ "" →
      jsTrimString ⟨(stripExploreLead (jsTrimString text).data).getD
          (jsTrimString text).data⟩ = "" →
      normalizeExploreQuery text = jsTrimString text) := by
  refine ⟨?_, ?_, rfl, ?_⟩
  · intro hd
    have hdesc : desc ≠ "" := by
      intro he
      rw [he] at hd
      exact hd rfl
    unfold getExploreQuery
    simp [hdesc, normalizeExploreQuery_ne_empty desc hd]
  · intro hd
    by_cases hdesc : desc = ""
    · subst hdesc
      simp [getExploreQuery]
    · have hnorm : normalizeExploreQuery desc = "" := by
        rw [normalizeExploreQuery_eq, if_pos hd]
      unfold getExploreQuery
      simp [hdesc, hnorm]
  · intro text ht hstrip
    rw [normalizeExploreQuery_eq, if_neg ht, if_pos hstrip]

/-- Witness for C3 (amended) at concrete inputs, exercising the nonblank
description, the blank description, the absent description, and the
empty-strip fallback. -/
theorem getExploreQuery_spec_witness :
    (jsTrimString " search on bing for " ≠ "" ∧
      getExploreQuery (some " search on bing for ") "x" =
        normalizeExploreQuery " search on bing for ") ∧
    (jsTrimString " " = "" ∧
      getExploreQuery (some " ") "x" = normalizeExploreQuery "x") ∧
    getExploreQuery none "x" = normalizeExploreQuery "x" ∧
    normalizeExploreQuery " search on bing for " =
      jsTrimString " search on bing for " := by
  have h1 := getExploreQuery_spec " search on bing for " "x"
  have h2 := getExploreQuery_spec " " "x"
  exact ⟨⟨by decide, h1.1 (by decide)⟩, ⟨by decide, h2.2.1 (by decide)⟩,
    h1.2.2.1, h1.2.2.2 " search on bing for " (by decide) (by decide)⟩

/-- The plain space is `\s` whitespace. -/
theorem jsSpace_spaceChar : jsSpace spaceChar = true := by decide

/-- Lowercase alphanumerics are not whitespace. -/
theorem isLowerAlnum_not_space {c : Char} (h : isLowerAlnum c = true) :
    jsSpace c = false := by
  simp only [isLowerAlnum, Bool.or_eq_true, Bool.and_eq_true,
    decide_eq_true_eq] at h
  rw [← Bool.not_eq_true]
  intro hs
  simp only [jsSpace, Bool.or_eq_true, Bool.and_eq_true, beq_iff_eq,
    decide_eq_true_eq] at hs
  omega

/-- For normal-form characters, being whitespace means being the space. -/
theorem goodChar_space_iff {c : Char} (h : goodChar c = true) :
    jsSpace c = true ↔ c = spaceChar := by
  simp only [goodChar, Bool.or_eq_true, beq_iff_eq] at h
  constructor
  · intro hs
    rcases h with h | h
    · rw [isLowerAlnum_not_space h] at hs
      cases hs
    · exact h
  · intro hc
    rw [hc]
    exact jsSpace_spaceChar

/-- `toLowerCase` fixes normal-form characters. -/
theorem goodChar_toLower {c : Char} (h : goodChar c = true) :
    jsToLower c = c := by
  simp only [goodChar, Bool.or_eq_true, beq_iff_eq] at h
  rcases h with h | h
  · simp only [isLowerAlnum, Bool.or_eq_true, Bool.and_eq_true,
      decide_eq_true_eq] at h
    simp only [jsToLower]
    rw [if_neg (by omega)]
  · subst h
    decide

/-- The alphanumeric/whitespace filter keeps normal-form characters. -/
theorem goodChar_keep {c : Char} (h : goodChar c = true) :
    keepChar c = true := by
  simp only [goodChar, Bool.or_eq_true, beq_iff_eq] at h
  unfold keepChar
  rcases h with h | h
  · simp [h]
  · subst h
    simp [jsSpace_spaceChar]

/-- Lower-casing fixes lists of normal-form characters. -/
theorem map_toLower_fix {l : List Char} (h : ∀ c ∈ l, goodChar c = true) :
    l.map jsToLower = l := by
  rw [List.map_congr_left fun a ha => goodChar_toLower (h a ha)]
  exact List.map_id' l

/-- Filtering fixes lists of normal-form characters. -/
theorem filter_keep_fix {l : List Char} (h : ∀ c ∈ l, goodChar c = true) :
    l.filter keepChar = l :=
  List.filter_eq_self.mpr fun a ha => goodChar_keep (h a ha)

/-- Whitespace collapsing fixes lists in normal form (no adjacent spaces;
when the flag is set, the head may not be a space). -/
theorem collapseWSAux_fix :
    ∀ (l : List Char) (b : Bool), (∀ c ∈ l, goodChar c = true) → NoAdjSp l →
      (b = true → l.head? ≠ some spaceChar) → collapseWSAux b l = l := by
  intro l
  induction l with
  | nil =>
    intro b _ _ _
    cases b <;> rfl
  | cons c rest ih =>
    intro b hg hc hh
    have hgc : goodChar c = true := hg c (List.mem_cons_self c rest)
    have hgrest : ∀ x ∈ rest, goodChar x = true :=
      fun x hx => hg x (List.mem_cons_of_mem c hx)
    have hcrest : NoAdjSp rest := (List.chain'_cons'.mp hc).2
    cases hsp : jsSpace c with
    | true =>
      have hceq : c = spaceChar := (goodChar_space_iff hgc).mp hsp
      cases b with
      | true =>
        exact absurd (by rw [List.head?_cons, hceq]) (hh rfl)
      | false =>
        have heq : collapseWSAux false (c :: rest) =
            spaceChar :: collapseWSAux true rest := by
          simp [collapseWSAux, hsp]
        rw [heq, hceq]
        congr 1
        refine ih true hgrest hcrest fun _ hhr => ?_
        exact (List.chain'_cons'.mp hc).1 spaceChar
          (Option.mem_def.mpr hhr) ⟨hceq, rfl⟩
    | false =>
      have heq : collapseWSAux b (c :: rest) =
          c :: collapseWSAux false rest := by
        cases b <;> simp [collapseWSAux, hsp]
      rw [heq]
      congr 1
      exact ih false hgrest hcrest fun hff => absurd hff (by simp)

/-- All characters emitted by whitespace collapsing are in normal form,
provided the input passed the filter. -/
theorem collapseWSAux_good :
    ∀ (l : List Char) (b : Bool), (∀ c ∈ l, keepChar c = true) →
      ∀ c ∈ collapseWSAux b l, goodChar c = true := by
  intro l
  induction l with
  | nil =>
    intro b _ c hc
    cases b <;> cases hc
  | cons a rest ih =>
    intro b hk c hc
    have hka : keepChar a = true := hk a (List.mem_cons_self a rest)
    have hkrest : ∀ x ∈ rest, keepChar x = true :=
      fun x hx => hk x (List.mem_cons_of_mem a hx)
    cases hsp : jsSpace a with
    | true =>
      cases b with
      | true =>
        simp only [collapseWSAux, hsp, if_true] at hc
        exact ih true hkrest c hc
      | false =>
        simp [collapseWSAux, hsp] at hc
        rcases hc with rfl | hc'
        · decide
        · exact ih true hkrest c hc'
    | false =>
      simp [collapseWSAux, hsp] at hc
      rcases hc with rfl | hc'
      · simp only [keepChar, Bool.or_eq_true] at hka
        rcases hka with h | h
        · simp [goodChar, h]
        · rw [h] at hsp
          cases hsp
      · exact ih false hkrest c hc'

/-- Whitespace collapsing emits no two adjacent spaces, and when the flag is
set the output cannot start with a space. -/
theorem collapseWSAux_chain :
    ∀ (l : List Char) (b : Bool), NoAdjSp (collapseWSAux b l) ∧
      (b = true → (collapseWSAux b l).head? ≠ some spaceChar) := by
  intro l
  induction l with
  | nil =>
    intro b
    refine ⟨?_, fun _ => ?_⟩ <;> cases b <;> simp [collapseWSAux]
    · exact List.chain'_nil
    · exact List.chain'_nil
  | cons a rest ih =>
    intro b
    cases hsp : jsSpace a with
    | true =>
      cases b with
      | true =>
        have heq : collapseWSAux true (a :: rest) = collapseWSAux true rest := by
          simp [collapseWSAux, hsp]
        rw [heq]
        exact ih true
      | false =>
        have heq : collapseWSAux false (a :: rest) =
            spaceChar :: collapseWSAux true rest := by
          simp [collapseWSAux, hsp]
        rw [heq]
        constructor
        · rw [NoAdjSp, List.chain'_cons']
          refine ⟨?_, (ih true).1⟩
          rintro y hy ⟨-, hy2⟩
          exact (ih true).2 rfl (by rw [Option.mem_def] at hy; rw [hy, hy2])
        · intro hff
          exact absurd hff (by simp)
    | false =>
      have hane : a ≠ spaceChar := by
        intro he
        rw [he, jsSpace_spaceChar] at hsp
        cases hsp
      have heq : collapseWSAux b (a :: rest) =
          a :: collapseWSAux false rest := by
        cases b <;> simp [collapseWSAux, hsp]
      rw [heq]
      constructor
      · rw [NoAdjSp, List.chain'_cons']
        exact ⟨fun y _ h => hane h.1, (ih false).1⟩
      · intro _
        simp [hane]

/-- The head surviving `dropWhile p` does not satisfy `p`. -/
theorem head?_dropWhile {p : Char → Bool} :
    ∀ (l : List Char) (a : Char), (l.dropWhile p).head? = some a →
      p a = false := by
  intro l
  induction l with
  | nil =>
    intro a h
    cases h
  | cons c rest ih =>
    intro a h
    rw [List.dropWhile_cons] at h
    by_cases hc : p c = true
    · rw [if_pos hc] at h
      exact ih a h
    · rw [if_neg hc, List.head?_cons] at h
      obtain rfl : c = a := by injection h
      exact Bool.eq_false_iff.mpr hc

/-- `dropWhile` is the identity when the head does not satisfy `p`. -/
theorem dropWhile_eq_self_of_head {p : Char → Bool} (l : List Char)
    (h : ∀ a, l.head? = some a → p a = false) : l.dropWhile p = l := by
  cases l with
  | nil => rfl
  | cons c rest =>
    rw [List.dropWhile_cons, if_neg (by rw [h c rfl]; simp)]

/-- Trimming fixes lists in normal form. -/
theorem jsTrim_fix {l : List Char} (hh : l.head? ≠ some spaceChar)
    (hl : l.getLast? ≠ some spaceChar) (hg : ∀ c ∈ l, goodChar c = true) :
    jsTrim l = l := by
  have hhead : ∀ a, l.head? = some a → jsSpace a = false := by
    intro a ha
    have hga : goodChar a = true :=
      hg a (List.mem_of_mem_head? (Option.mem_def.mpr ha))
    rw [Bool.eq_false_iff]
    intro hs
    exact hh (by rw [ha, (goodChar_space_iff hga).mp hs])
  have hlast : ∀ a, l.reverse.head? = some a → jsSpace a = false := by
    intro a ha
    rw [List.head?_reverse] at ha
    have hmem : a ∈ l := by
      rw [← List.mem_reverse]
      exact List.mem_of_mem_head? (Option.mem_def.mpr (by
        rw [List.head?_reverse]; exact ha))
    have hga : goodChar a = true := hg a hmem
    rw [Bool.eq_false_iff]
    intro hs
    exact hl (by rw [ha, (goodChar_space_iff hga).mp hs])
  unfold jsTrim
  rw [dropWhile_eq_self_of_head l hhead, dropWhile_eq_self_of_head _ hlast,
    List.reverse_reverse]

/-- `dropWhile` preserves `Chain'`. -/
theorem chain'_dropWhile {R : Char → Char → Prop} {p : Char → Bool} :
    ∀ l : List Char, List.Chain' R l → List.Chain' R (l.dropWhile p) := by
  intro l
  induction l with
  | nil =>
    intro h
    exact h
  | cons a rest ih =>
    intro h
    rw [List.dropWhile_cons]
    by_cases hp : p a = true
    · rw [if_pos hp]
      exact ih (List.chain'_cons'.mp h).2
    · rw [if_neg hp]
      exact h

/-- `NoAdjSp` is preserved by reversal. -/
theorem noAdjSp_reverse {l : List Char} (h : NoAdjSp l) :
    NoAdjSp l.reverse := by
  rw [NoAdjSp, List.chain'_reverse]
  exact List.Chain'.imp (fun a b hab h' => hab ⟨h'.2, h'.1⟩) h

/-- Members of a trimmed list are members of the list. -/
theorem mem_jsTrim {a : Char} {l : List Char} (h : a ∈ jsTrim l) : a ∈ l := by
  unfold jsTrim at h
  rw [List.mem_reverse] at h
  have h2 := (List.dropWhile_sublist _).mem h
  rw [List.mem_reverse] at h2
  exact (List.dropWhile_sublist _).mem h2

/-- Trimming preserves `NoAdjSp`. -/
theorem noAdjSp_jsTrim {l : List Char} (h : NoAdjSp l) :
    NoAdjSp (jsTrim l) :=
  noAdjSp_reverse (chain'_dropWhile _ (noAdjSp_reverse (chain'_dropWhile _ h)))

/-- A last element surviving `dropWhile` was the last element. -/
theorem getLast?_dropWhile {p : Char → Bool} (m : List Char) (a : Char)
    (h : (m.dropWhile p).getLast? = some a) : m.getLast? = some a := by
  have hne : m.dropWhile p ≠ [] := by
    intro he
    rw [he] at h
    cases h
  calc m.getLast? = (m.takeWhile p ++ m.dropWhile p).getLast? := by
        rw [List.takeWhile_append_dropWhile]
    _ = (m.dropWhile p).getLast? := List.getLast?_append_of_ne_nil _ hne
    _ = some a := h

/-- The head of a trimmed list is not whitespace. -/
theorem jsTrim_head (l : List Char) (a : Char)
    (h : (jsTrim l).head? = some a) : jsSpace a = false := by
  unfold jsTrim at h
  rw [List.head?_reverse] at h
  have h2 := getLast?_dropWhile _ a h
  rw [List.getLast?_reverse] at h2
  exact head?_dropWhile _ a h2

/-- The last element of a trimmed list is not whitespace. -/
theorem jsTrim_last (l : List Char) (a : Char)
    (h : (jsTrim l).getLast? = some a) : jsSpace a = false := by
  unfold jsTrim at h
  rw [List.getLast?_reverse] at h
  exact head?_dropWhile _ a h

/-- The output of the normalization pipeline is in normal form. -/
theorem normalizeQuestion_isNormalized (q : String) :
    isNormalizedQ (normalizeQuestion q) := by
  unfold normalizeQuestion collapseWS isNormalizedQ
  have hkeep : ∀ c ∈ (q.data.map jsToLower).filter keepChar,
      keepChar c = true := fun c hc => List.of_mem_filter hc
  have hgood := collapseWSAux_good ((q.data.map jsToLower).filter keepChar)
    false hkeep
  refine ⟨fun c hc => hgood c (mem_jsTrim hc), ?_, ?_, ?_⟩
  · exact noAdjSp_jsTrim
      (collapseWSAux_chain ((q.data.map jsToLower).filter keepChar) false).1
  · intro hh
    have := jsTrim_head _ spaceChar hh
    rw [jsSpace_spaceChar] at this
    cases this
  · intro hl
    have := jsTrim_last _ spaceChar hl
    rw [jsSpace_spaceChar] at this
    cases this

/-- The normalization pipeline fixes lists in normal form. -/
theorem normalizeQuestion_fixed {l : List Char} (h : isNormalizedQ l) :
    normalizeQuestion ⟨l⟩ = l := by
  obtain ⟨hg, hc, hh, hl⟩ := h
  show jsTrim (collapseWSAux false ((l.map jsToLower).filter keepChar)) = l
  rw [map_toLower_fix hg, filter_keep_fix hg,
    collapseWSAux_fix l false hg hc (fun hff => absurd hff (by simp)),
    jsTrim_fix hh hl hg]

/-- The normalization pipeline is idempotent. -/
theorem normalizeQuestion_idem (q : String) :
    normalizeQuestion ⟨normalizeQuestion q⟩ = normalizeQuestion q :=
  normalizeQuestion_fixed (normalizeQuestion_isNormalized q)

set_option maxRecDepth 8000 in
/-- Claim C8: `hashQuestion` factors through normalization — raw strings
that normalize identically hash identically; in particular
`hashQuestion "What is 2+2?" = hashQuestion "what is 2+2"`, and hashing the
already-normalized form of any string yields the hash of the original. -/
theorem hashQuestion_factors (q1 q2 : String)
    (h : normalizeQuestion q1 = normalizeQuestion q2) :
    hashQuestion q1 = hashQuestion q2 ∧
    hashQuestion "What is 2+2?" = hashQuestion "what is 2+2" ∧
    ∀ q : String, hashQuestion ⟨normalizeQuestion q⟩ = hashQuestion q := by
  refine ⟨?_, by decide, ?_⟩
  · unfold hashQuestion
    rw [h]
  · intro q
    unfold hashQuestion
    rw [normalizeQuestion_idem q]

set_option maxRecDepth 8000 in
/-- Witness for C8 at the two concrete questions of the specification. -/
theorem hashQuestion_factors_witness :
    normalizeQuestion "What is 2+2?" = normalizeQuestion "what is 2+2" ∧
    hashQuestion "What is 2+2?" = hashQuestion "what is 2+2" :=
  ⟨by decide,
   (hashQuestion_factors "What is 2+2?" "what is 2+2" (by decide)).1⟩

end MsRewards
